import Mathlib
/-!
Verification of the particle-SLAM core of the MappingRover2 repository
(src/raspberry/particle_slam.cpp), as a shallow embedding.

Conventions of the embedding:
* C++ doubles are modelled as exact rationals.
* Mutating member functions become functions from the old state to the
  new state; bool-returning mutators return a pair.
* The single random draw of the resampling step (the offset produced by
  std::uniform_real_distribution) is passed in as an explicit parameter.
* Reading past the end of a vector (undefined behaviour in C++) is
  modelled by an Option result: none marks an out-of-bounds access.
* The components that the SLAM core calls but whose definitions live in
  headers that are not part of the two source files (robot_configuration,
  occupancy grid, OpenCV raster operations, the ASSERT macro) are kept
  abstract, bundled in the Model structure below.
-/
/-!
## Systematic resampling, lines 119 to 135 of particle_slam.cpp

The loop is embedded over the list of particle weights.  The inner
while loop becomes advance, the outer for loop becomes sysLoop; the
state (i, c) of the C++ loop is threaded explicitly and the suffix of
the weight list still to be consumed replaces pointer arithmetic.  An
access past the end of the weight vector yields none.
-/
/-!
## Specification-side description of systematic resampling

The spec describes the selected index for target cumulative weight u as
the first position at which the running cumulative weight reaches u.
These definitions follow the words of the spec and are compared with the
embedded code in the refinement theorem for claim C1.
-/

namespace MappingRover

/-- A robot pose, the value type rbt::pose of the source: a 2D point
plus a yaw angle. -/
structure Pose where
  x : ℚ
  y : ℚ
  m_fYaw : ℚ
  deriving DecidableEq

/-- rbt::pose::zero. -/
def Pose.zero : Pose := ⟨0, 0, 0⟩

/-- One sensor sample, SSensorData of the source: yaw delta, bearing
angle, range distance and the per-wheel encoder tick deltas. -/
structure SSensorData where
  m_nYaw : Int
  m_nAngle : Int
  m_nDistance : Int
  m_anEncoderTicks : List Int
  deriving DecidableEq

/-- One buffered scan sample of SScanLine: the pose interpolated from
odometry, the bearing and the range. -/
structure ScanItem where
  m_pose : Pose
  m_nAngle : Int
  m_nDistance : Int
  deriving DecidableEq

/-- The scan line accumulator SScanLine: the ordered buffer of samples
of the sweep in progress. -/
structure SScanLine where
  m_vecscan : List ScanItem
  deriving DecidableEq

/-- The three-way comparison lambda CompareAngle inside SScanLine::add. -/
def CompareAngle (lhs rhs : Int) : Int :=
  if lhs < rhs then -1 else if rhs < lhs then 1 else 0

/-- Junk scan item standing for the value of front and back of an empty
vector; every use below is guarded by a non-emptiness test, mirroring the
fact that the source only calls front and back on non-empty buffers. -/
def dummyScanItem : ScanItem := ⟨Pose.zero, 0, 0⟩

/-- SScanLine::add, parameterised by the externally defined UpdatePose.
Returns the bool result of the C++ member function together with the
new buffer state. -/
def SScanLine.add (up : Pose → SSensorData → Pose) (sl : SScanLine)
    (data : SSensorData) : Bool × SScanLine :=
  if sl.m_vecscan = [] then
    (true, ⟨[⟨up Pose.zero data, data.m_nAngle, data.m_nDistance⟩]⟩)
  else
    let front := sl.m_vecscan.headD dummyScanItem
    let back := sl.m_vecscan.getLastD dummyScanItem
    let nCompare := CompareAngle front.m_nAngle back.m_nAngle
    let nCompareOther := CompareAngle back.m_nAngle data.m_nAngle
    if nCompare = 0 ∨ nCompareOther = 0 ∨ nCompare = nCompareOther then
      (true, ⟨sl.m_vecscan ++ [⟨up back.m_pose data, data.m_nAngle, data.m_nDistance⟩]⟩)
    else
      (false, sl)

/-- SScanLine::translation: the point of the pose of the last buffered
sample, as a size. -/
def SScanLine.translation (sl : SScanLine) : ℚ × ℚ :=
  ((sl.m_vecscan.getLastD dummyScanItem).m_pose.x,
   (sl.m_vecscan.getLastD dummyScanItem).m_pose.y)

/-- SScanLine::rotation: the yaw of the pose of the last buffered sample. -/
def SScanLine.rotation (sl : SScanLine) : ℚ :=
  (sl.m_vecscan.getLastD dummyScanItem).m_pose.m_fYaw

/-- The while loop of the resampling step:
while (c < u) (increment i; c += weight of particle i).  The list
argument is the suffix of the weights beginning at index i + 1; when it
is exhausted while c < u still holds, the C++ code would read past the

end of the vector, which the embedding reports as none. -/

def advance (u : ℚ) : List ℚ → Nat → ℚ → Option (Nat × ℚ × List ℚ)
  | [], i, c => if c < u then none else some (i, c, [])
  | w :: ws, i, c =>
      if c < u then advance u ws (i + 1) (c + w) else some (i, c, w :: ws)

/-- The for loop of the resampling step: cnt slots remain to be filled,
m is the index of the current slot, (i, c, rest) is the threaded state
of the cumulative walk.  Returns the list of selected source indices. -/
def sysLoop (step r : ℚ) : Nat → Nat → Nat → ℚ → List ℚ → Option (List Nat)
  | 0, _, _, _, _ => some []
  | cnt + 1, m, i, c, rest =>
      match advance (r + (m : ℚ) * step) rest i c with
      | none => none
      | some (i2, c2, rest2) =>
          match sysLoop step r cnt (m + 1) i2 c2 rest2 with
          | none => none
          | some l => some (i2 :: l)

/-- The complete resampling pass over a weight vector: step size
fWeightTotal divided by the population size, c initialised to the weight
of the front particle, then the systematic selection loop.  The C++ code
calls front() on the population, so the empty population is undefined
behaviour, reported as none. -/
def resampleIndices (ws : List ℚ) (r : ℚ) : Option (List Nat) :=
  match ws with
  | [] => none
  | w :: rest =>
      sysLoop ((w :: rest).sum / ((w :: rest).length : ℚ)) r
        (w :: rest).length 0 0 w rest

/-- Running cumulative weights of a list, starting from accumulator a:
cums a [w0, w1, ...] = [a + w0, a + w0 + w1, ...]. -/
def cums : ℚ → List ℚ → List ℚ
  | _, [] => []
  | a, w :: ws => (a + w) :: cums (a + w) ws

/-- First position of a list whose entry is at least u (the length of
the list if there is none). -/
def leastIdxGe (u : ℚ) : List ℚ → Nat
  | [] => 0
  | c :: cs => if u ≤ c then 0 else leastIdxGe u cs + 1

/-- Cumulative weight of the particles up to and including index j. -/
def prefixW (ws : List ℚ) (j : Nat) : ℚ := (ws.take (j + 1)).sum

/-- The index sequence of systematic resampling as worded in the spec:
for slot m, target cumulative weight u = r + m * (totalWeight / N), and
the selected source index is the first position whose running cumulative
weight reaches u. -/
def specIndices (ws : List ℚ) (r : ℚ) : List Nat :=
  (List.range ws.length).map
    (fun (m : Nat) => leastIdxGe (r + (m : ℚ) * (ws.sum / (ws.length : ℚ))) (cums 0 ws))

/-- Modelled from the spec: the collaborators of the SLAM core whose
definitions live in headers that are not among the two source files of
the repository (robot_configuration.h: UpdatePose, sample_motion_model,
measurement_model_map; the occupancy grid class with toGridCoordinates,
update and GreyscaleMap; the OpenCV likelihood-field operations
threshold, distanceTransform, at and line).  Per section 4.1 of the spec
the greyscale map is a pure derivation of the grid, so GreyscaleMap is a
function of the grid value; all other components are likewise kept as
abstract functions, so every theorem below holds for every
implementation of them. -/
structure Model (Grid LikMap Image : Type) where
  UpdatePose : Pose → SSensorData → Pose
  sample_motion_model : Pose → ℚ × ℚ → ℚ → Pose
  measurement_model_map : Pose → SScanLine → ((ℚ × ℚ) → ℚ) → ℚ
  matAt : LikMap → Int × Int → ℚ
  toGridCoordinates : Grid → ℚ × ℚ → Int × Int
  occgridUpdateScan : Grid → Pose → SScanLine → Grid
  rebuildLikelihood : Grid → LikMap
  GreyscaleMap : Grid → Image
  drawLine : Image → Int × Int → Int × Int → Image
  initGrid : Grid
  initLik : LikMap
  initWeight : ℚ

/-- One particle, SParticle of the source: pose, importance weight,
likelihood field and occupancy grid. -/
structure SParticle (Grid LikMap : Type) where
  m_pose : Pose
  m_fWeight : ℚ
  m_matLikelihood : LikMap
  m_occgrid : Grid
  deriving DecidableEq

/-- The default-constructed particle: zero pose, fresh grid and
likelihood field; the C++ default constructor leaves m_fWeight
uninitialised, modelled by the arbitrary initWeight of the model. -/
def initParticle {Grid LikMap Image : Type} (M : Model Grid LikMap Image) :
    SParticle Grid LikMap :=
  ⟨Pose.zero, M.initWeight, M.initLik, M.initGrid⟩

/-- SParticle::update: sample a new pose from the motion model, score
the scan against the old likelihood field to obtain the weight, update
the occupancy grid along the scan, then rebuild the likelihood field
from the updated grid. -/
def SParticle.update {Grid LikMap Image : Type} (M : Model Grid LikMap Image)
    (p : SParticle Grid LikMap) (sl : SScanLine) : SParticle Grid LikMap :=
  let pose2 := M.sample_motion_model p.m_pose sl.translation sl.rotation
  let w2 := M.measurement_model_map pose2 sl
      (fun pt => M.matAt p.m_matLikelihood (M.toGridCoordinates p.m_occgrid pt))
  let grid2 := M.occgridUpdateScan p.m_occgrid pose2 sl
  let lik2 := M.rebuildLikelihood grid2
  ⟨pose2, w2, lik2, grid2⟩

/-- The inner loop of boost::max_element over the weight values:
cur is the index of the next element of the remaining list l, best the
index of the current first maximal element and bw its value. -/
def maxElemIdxAux : List ℚ → Nat → Nat → ℚ → Nat
  | [], _, best, _ => best
  | w :: l, cur, best, bw =>
      if bw < w then maxElemIdxAux l (cur + 1) cur w
      else maxElemIdxAux l (cur + 1) best bw

/-- boost::max_element over a weight list, as the index of the first
maximal element (arbitrary value 0 for the empty list, on which the
source never calls it). -/
def maxElemIdx : List ℚ → Nat
  | [] => 0
  | w :: l => maxElemIdxAux l 1 0 w

/-- The estimator state CParticleSLAM: particle population, index of the
best particle (none models the end iterator), scan-line accumulator and
the trajectory of best poses. -/
structure CParticleSLAM (Grid LikMap : Type) where
  m_vecparticle : List (SParticle Grid LikMap)
  m_itparticle : Option Nat
  m_scanline : SScanLine
  m_vecpose : List Pose
  deriving DecidableEq

/-- The constructor CParticleSLAM(cParticles): cParticles
default-constructed particles, best-particle iterator at end. -/
def CParticleSLAM.construct {Grid LikMap Image : Type}
    (M : Model Grid LikMap Image) (cParticles : Nat) : CParticleSLAM Grid LikMap :=
  ⟨List.replicate cParticles (initParticle M), none, ⟨[]⟩, []⟩

/-- CParticleSLAM::receivedSensorData.  The random offset r of the
resampling step is an explicit parameter.  The result is none exactly
when the resampling loop would read past the end of the particle vector
(undefined behaviour in C++); otherwise some of the bool return value
and the new estimator state. -/
def receivedSensorDataO {Grid LikMap Image : Type} (M : Model Grid LikMap Image)
    (st : CParticleSLAM Grid LikMap) (data : SSensorData) (r : ℚ) :
    Option (Bool × CParticleSLAM Grid LikMap) :=
  let res := SScanLine.add M.UpdatePose st.m_scanline data
  if res.1 then
    some (false, { st with m_scanline := res.2 })
  else
    let vecUpdated := st.m_vecparticle.map (fun p => SParticle.update M p st.m_scanline)
    let ws := vecUpdated.map (fun p => p.m_fWeight)
    match resampleIndices ws r with
    | none => none
    | some idxs =>
        let vecparticleNew := idxs.map (fun i => vecUpdated.getD i (initParticle M))
        let best := maxElemIdx (vecparticleNew.map (fun p => p.m_fWeight))
        some (true,
          { m_vecparticle := vecparticleNew,
            m_itparticle := some best,
            m_scanline := (SScanLine.add M.UpdatePose ⟨[]⟩ data).2,
            m_vecpose := st.m_vecpose ++ [(vecparticleNew.getD best (initParticle M)).m_pose] })

/-- CParticleSLAM::getMap.  none models the ASSERT firing when the
best-particle iterator is still at end; otherwise the greyscale map of
the best particle with the trajectory overlay drawn by the fold, paired
with the state after the call. -/
def CParticleSLAM.getMap {Grid LikMap Image : Type} (M : Model Grid LikMap Image)
    (st : CParticleSLAM Grid LikMap) : Option (Image × CParticleSLAM Grid LikMap) :=
  match st.m_itparticle with
  | none => none
  | some idx =>
      let best := st.m_vecparticle.getD idx (initParticle M)
      let m := M.GreyscaleMap best.m_occgrid
      let ptnPrev := M.toGridCoordinates best.m_occgrid (0, 0)
      let folded := st.m_vecpose.foldl
        (fun (acc : Image × (Int × Int)) pose =>
          let ptnGrid := M.toGridCoordinates best.m_occgrid (pose.x, pose.y)
          (M.drawLine acc.1 acc.2 ptnGrid, ptnGrid))
        (m, ptnPrev)
      some (folded.1, st)

/-- Driving a state through a list of sensor samples with their random
offsets, collecting the bool results; none as soon as one call is
undefined. -/
def runAll {Grid LikMap Image : Type} (M : Model Grid LikMap Image) :
    CParticleSLAM Grid LikMap → List (SSensorData × ℚ) →
    Option (List Bool × CParticleSLAM Grid LikMap)
  | st, [] => some ([], st)
  | st, (data, r) :: rest =>
      match receivedSensorDataO M st data r with
      | none => none
      | some (b, st2) =>
          match runAll M st2 rest with
          | none => none
          | some (bs, stf) => some (b :: bs, stf)

/-- A concrete instantiation of the abstract collaborators, used only to
exercise the theorems on closed inputs. -/
def demoModel : Model Unit Unit Unit where
  UpdatePose := fun p _ => p
  sample_motion_model := fun p _ _ => p
  measurement_model_map := fun _ _ _ => 1
  matAt := fun _ _ => 0
  toGridCoordinates := fun _ _ => (0, 0)
  occgridUpdateScan := fun g _ _ => g
  rebuildLikelihood := fun g => g
  GreyscaleMap := fun g => g
  drawLine := fun i _ _ => i
  initGrid := ()
  initLik := ()
  initWeight := 0

/-- A buffered scan line of two samples with increasing bearings. -/
def demoScan2 : SScanLine := ⟨[⟨Pose.zero, 0, 10⟩, ⟨Pose.zero, 10, 20⟩]⟩

/-- A sample whose bearing 5 reverses the increasing sweep of demoScan2. -/
def demoDataRev : SSensorData := ⟨0, 5, 15, []⟩

/-- A first sample fed to an empty accumulator. -/
def demoData0 : SSensorData := ⟨0, 0, 10, []⟩

/-- The one-particle state holding demoScan2, about to resample. -/
def demoStateFull : CParticleSLAM Unit Unit :=
  ⟨[initParticle demoModel], none, demoScan2, []⟩

/-- The state produced by the resampling call on demoStateFull. -/
def demoStateAfter : CParticleSLAM Unit Unit :=
  ⟨[⟨Pose.zero, 1, (), ()⟩], some 0, ⟨[⟨Pose.zero, 5, 15⟩]⟩, [Pose.zero]⟩

/-- A state whose best-particle reference is set, for reading the map. -/
def demoStateBest : CParticleSLAM Unit Unit :=
  ⟨[initParticle demoModel], some 0, ⟨[]⟩, []⟩

lemma leastIdxGe_cums_eq (ws : List ℚ) :
    ∀ (a u : ℚ) (j : Nat), j < ws.length →
      u ≤ a + (ws.take (j + 1)).sum →
      (∀ j2, j2 < j → a + (ws.take (j2 + 1)).sum < u) →
      leastIdxGe u (cums a ws) = j := by
  induction ws with
  | nil => intro a u j hj _ _; simp at hj
  | cons w ws ih =>
    intro a u j hj hge hlt
    simp only [cums, leastIdxGe]
    by_cases h1 : u ≤ a + w
    · cases j with
      | zero => simp [h1]
      | succ k =>
        have h0 := hlt 0 (Nat.succ_pos k)
        simp only [List.take_succ_cons, List.take_zero, List.sum_cons, List.sum_nil,
          add_zero] at h0
        linarith
    · rw [if_neg h1]
      cases j with
      | zero =>
        simp only [List.take_succ_cons, List.take_zero, List.sum_cons, List.sum_nil,
          add_zero] at hge
        exact absurd hge h1
      | succ k =>
        have hk : k < ws.length := Nat.lt_of_succ_lt_succ hj
        have hge2 : u ≤ (a + w) + (ws.take (k + 1)).sum := by
          simp only [List.take_succ_cons, List.sum_cons] at hge
          linarith
        have hlt2 : ∀ j2, j2 < k → (a + w) + (ws.take (j2 + 1)).sum < u := by
          intro j2 hj2
          have := hlt (j2 + 1) (Nat.succ_lt_succ hj2)
          simp only [List.take_succ_cons, List.sum_cons] at this
          linarith
        rw [ih (a + w) u k hk hge2 hlt2]

lemma advance_spec (ws : List ℚ) (u : ℚ) (rest : List ℚ) :
    ∀ (i : Nat) (c : ℚ),
      rest = ws.drop (i + 1) → i < ws.length → c = prefixW ws i →
      (∀ j, j < i → prefixW ws j < u) → u ≤ ws.sum →
      ∃ i2, advance u rest i c = some (i2, prefixW ws i2, ws.drop (i2 + 1)) ∧
        i ≤ i2 ∧ i2 < ws.length ∧ u ≤ prefixW ws i2 ∧
        ∀ j, j < i2 → prefixW ws j < u := by
  induction rest with
  | nil =>
    intro i c hrest hi hc hctx hu
    have hlen : ws.length ≤ i + 1 := by
      by_contra hcon
      push_neg at hcon
      have := List.drop_eq_nil_iff.mp hrest.symm
      omega
    have hfull : ws.take (i + 1) = ws := List.take_of_length_le hlen
    have hcs : c = ws.sum := by rw [hc, prefixW, hfull]
    have hncu : ¬ c < u := by rw [hcs]; exact not_lt.mpr hu
    refine ⟨i, ?_, le_refl i, hi, ?_, hctx⟩
    · simp only [advance, if_neg hncu]
      rw [hc, hrest]
    · rw [← hc]
      rw [hcs]
      exact hu
  | cons w rest2 ih =>
    intro i c hrest hi hc hctx hu
    by_cases hcu : c < u
    · have hlen : i + 1 < ws.length := by
        by_contra hcon
        push_neg at hcon
        rw [List.drop_eq_nil_of_le hcon] at hrest
        exact List.cons_ne_nil w rest2 hrest
      have hdecomp : ws.drop (i + 1) = ws[i + 1] :: ws.drop (i + 2) :=
        List.drop_eq_getElem_cons hlen
      rw [hdecomp] at hrest
      injection hrest with hw hrest2
      have hcw : c + w = prefixW ws (i + 1) := by
        rw [hc, hw, prefixW, prefixW, List.sum_take_succ ws (i + 1) hlen]
      have hctx2 : ∀ j, j < i + 1 → prefixW ws j < u := by
        intro j hj
        rcases Nat.lt_succ_iff_lt_or_eq.mp hj with h | h
        · exact hctx j h
        · rw [h, ← hc]; exact hcu
      obtain ⟨i2, heq, hle, hi2, hge2, hctx3⟩ :=
        ih (i + 1) (c + w) hrest2 hlen hcw hctx2 hu
      refine ⟨i2, ?_, le_trans (Nat.le_succ i) hle, hi2, hge2, hctx3⟩
      simp only [advance, if_pos hcu]
      exact heq
    · refine ⟨i, ?_, le_refl i, hi, ?_, hctx⟩
      · simp only [advance, if_neg hcu]
        rw [hc, hrest]
      · rw [← hc]
        exact not_lt.mp hcu

lemma sysLoop_spec (ws : List ℚ) (r step : ℚ) (hstep : 0 ≤ step) :
    ∀ (cnt : Nat), ∀ (m i : Nat) (c : ℚ) (rest : List ℚ),
      rest = ws.drop (i + 1) → i < ws.length → c = prefixW ws i →
      (∀ j, j < i → prefixW ws j < r + (m : ℚ) * step) →
      (∀ t, t < cnt → r + ((m + t : Nat) : ℚ) * step ≤ ws.sum) →
      ∃ l, sysLoop step r cnt m i c rest = some l ∧
        l = (List.range cnt).map
              (fun t => leastIdxGe (r + ((m + t : Nat) : ℚ) * step) (cums 0 ws)) ∧
        ∀ x, x ∈ l → x < ws.length := by
  intro cnt
  induction cnt with
  | zero =>
    intro m i c rest _ _ _ _ _
    exact ⟨[], rfl, by simp, by simp⟩
  | succ cnt ih =>
    intro m i c rest hrest hi hc hctx hu
    have hu0 : r + (m : ℚ) * step ≤ ws.sum := by
      have := hu 0 (Nat.succ_pos cnt)
      simpa using this
    obtain ⟨i2, hadv, hle, hi2, hge2, hctx2⟩ :=
      advance_spec ws (r + (m : ℚ) * step) rest i c hrest hi hc hctx hu0
    have hleast : leastIdxGe (r + (m : ℚ) * step) (cums 0 ws) = i2 := by
      apply leastIdxGe_cums_eq ws 0 (r + (m : ℚ) * step) i2 hi2
      · rw [zero_add]; exact hge2
      · intro j2 hj2; rw [zero_add]; exact hctx2 j2 hj2
    have hctx3 : ∀ j, j < i2 → prefixW ws j < r + ((m + 1 : Nat) : ℚ) * step := by
      intro j hj
      have h1 := hctx2 j hj
      have h2 : r + (m : ℚ) * step ≤ r + ((m + 1 : Nat) : ℚ) * step := by
        push_cast
        nlinarith
      linarith
    have hu2 : ∀ t, t < cnt → r + ((m + 1 + t : Nat) : ℚ) * step ≤ ws.sum := by
      intro t ht
      have := hu (t + 1) (by omega)
      have he : m + (t + 1) = m + 1 + t := by omega
      rw [he] at this
      exact this
    obtain ⟨l2, hloop, hl2, hbound⟩ :=
      ih (m + 1) i2 (prefixW ws i2) (ws.drop (i2 + 1)) rfl hi2 rfl hctx3 hu2
    refine ⟨i2 :: l2, ?_, ?_, ?_⟩
    · simp only [sysLoop, hadv, hloop]
    · rw [List.range_succ_eq_map, List.map_cons, List.map_map]
      refine List.cons_eq_cons.mpr ⟨?_, ?_⟩
      · simp only [Nat.add_zero]
        exact hleast.symm
      · rw [hl2]
        apply List.map_congr_left
        intro t _
        simp only [Function.comp_apply]
        have he : m + 1 + t = m + Nat.succ t := by omega
        rw [he]
    · intro x hx
      rcases List.mem_cons.mp hx with h | h
      · rw [h]; exact hi2
      · exact hbound x h

lemma resampleIndices_eq_spec (ws : List ℚ) (r : ℚ)
    (hws : ∀ w, w ∈ ws → 0 ≤ w) (hlen : 0 < ws.length)
    (_hr0 : 0 ≤ r) (hr1 : r ≤ ws.sum / (ws.length : ℚ)) :
    resampleIndices ws r = some (specIndices ws r) ∧
    ∀ x, x ∈ specIndices ws r → x < ws.length := by
  obtain ⟨w, rest, rfl⟩ : ∃ w rest, ws = w :: rest := by
    cases ws with
    | nil => simp at hlen
    | cons w rest => exact ⟨w, rest, rfl⟩
  set ws := w :: rest with hws_def
  have hsum : 0 ≤ ws.sum := List.sum_nonneg hws
  have hlenq : (0 : ℚ) < (ws.length : ℚ) := by
    exact_mod_cast hlen
  have hstep : 0 ≤ ws.sum / (ws.length : ℚ) := div_nonneg hsum (le_of_lt hlenq)
  have hNstep : (ws.length : ℚ) * (ws.sum / (ws.length : ℚ)) = ws.sum :=
    mul_div_cancel₀ ws.sum (ne_of_gt hlenq)
  have hu : ∀ t, t < ws.length →
      r + ((0 + t : Nat) : ℚ) * (ws.sum / (ws.length : ℚ)) ≤ ws.sum := by
    intro t ht
    have htq : (t : ℚ) + 1 ≤ (ws.length : ℚ) := by
      exact_mod_cast Nat.succ_le_of_lt ht
    have hmul : (t : ℚ) * (ws.sum / (ws.length : ℚ)) ≤
        ((ws.length : ℚ) - 1) * (ws.sum / (ws.length : ℚ)) := by
      apply mul_le_mul_of_nonneg_right _ hstep
      linarith
    have : r + ((ws.length : ℚ) - 1) * (ws.sum / (ws.length : ℚ)) ≤ ws.sum := by
      have hexp : r + ((ws.length : ℚ) - 1) * (ws.sum / (ws.length : ℚ))
          = r - (ws.sum / (ws.length : ℚ)) + (ws.length : ℚ) * (ws.sum / (ws.length : ℚ)) := by
        ring
      rw [hexp, hNstep]
      linarith
    simp only [Nat.zero_add]
    linarith
  have hpre : w = prefixW ws 0 := by
    simp [prefixW, hws_def]
  obtain ⟨l, hloop, hl, hbound⟩ :=
    sysLoop_spec ws r (ws.sum / (ws.length : ℚ)) hstep ws.length 0 0 w rest
      (by simp [hws_def]) hlen hpre (by intro j hj; omega) hu
  have hspec : l = specIndices ws r := by
    rw [hl, specIndices]
    apply List.map_congr_left
    intro t _
    simp only [Nat.zero_add]
  constructor
  · rw [resampleIndices, ← hws_def, hloop, hspec]
  · rw [← hspec]
    exact hbound

lemma leastIdxGe_mono (u v : ℚ) (huv : u ≤ v) :
    ∀ cs : List ℚ, leastIdxGe u cs ≤ leastIdxGe v cs := by
  intro cs
  induction cs with
  | nil => exact le_refl _
  | cons c cs ih =>
    simp only [leastIdxGe]
    by_cases hv : v ≤ c
    · rw [if_pos hv, if_pos (le_trans huv hv)]
    · rw [if_neg hv]
      by_cases hu2 : u ≤ c
      · rw [if_pos hu2]
        exact Nat.zero_le _
      · rw [if_neg hu2]
        omega

lemma specIndices_chain (ws : List ℚ) (r : ℚ) (hws : ∀ w, w ∈ ws → 0 ≤ w) :
    List.Chain' (fun a b => a ≤ b) (specIndices ws r) := by
  have hstep : 0 ≤ ws.sum / (ws.length : ℚ) :=
    div_nonneg (List.sum_nonneg hws) (Nat.cast_nonneg _)
  rw [specIndices]
  apply List.Pairwise.chain'
  rw [List.pairwise_map]
  apply List.Pairwise.imp ?_ (List.pairwise_lt_range ws.length)
  intro a b hab
  apply leastIdxGe_mono
  have : (a : ℚ) ≤ (b : ℚ) := by exact_mod_cast le_of_lt hab
  nlinarith

lemma sum_zero_all_zero (ws : List ℚ) (h : ∀ w, w ∈ ws → 0 ≤ w) (hs : ws.sum = 0) :
    ∀ w, w ∈ ws → w = 0 := by
  induction ws with
  | nil => simp
  | cons a l ih =>
    simp only [List.sum_cons] at hs
    have ha : 0 ≤ a := h a (by simp)
    have hl : 0 ≤ l.sum := List.sum_nonneg (fun w hw => h w (by simp [hw]))
    have ha0 : a = 0 := by linarith
    intro w hw
    rcases List.mem_cons.mp hw with h1 | h1
    · rw [h1, ha0]
    · exact ih (fun w hw => h w (by simp [hw])) (by linarith) w h1

/-- C1: when a scan line completes, the resampling loop of
receivedSensorData performs systematic resampling exactly as the spec
words it: given non-negative weights with total W over N particles and
an offset r in the interval from 0 to W/N, the loop succeeds and for
every slot m selects the first source index whose running cumulative
weight reaches the target u = r + m * (W/N); the sequence of selected
source indices is non-decreasing across m. -/
theorem systematic_resampling_as_specified (ws : List ℚ) (r : ℚ)
    (hws : ∀ w, w ∈ ws → 0 ≤ w) (hlen : 0 < ws.length)
    (hr0 : 0 ≤ r) (hr1 : r < ws.sum / (ws.length : ℚ)) :
    resampleIndices ws r = some (specIndices ws r) ∧
    List.Chain' (fun a b => a ≤ b) (specIndices ws r) :=
  ⟨(resampleIndices_eq_spec ws r hws hlen hr0 (le_of_lt hr1)).1,
   specIndices_chain ws r hws⟩

/-- Witness for C1 at weights 1,1,1,1 and offset one half. -/
theorem systematic_resampling_as_specified_witness :
    resampleIndices [1, 1, 1, 1] (1 / 2) = some (specIndices [1, 1, 1, 1] (1 / 2)) ∧
    List.Chain' (fun a b => a ≤ b) (specIndices [1, 1, 1, 1] (1 / 2)) := by
  apply systematic_resampling_as_specified
  · intro w hw
    simp at hw
    rw [hw]
    norm_num
  · norm_num
  · norm_num
  · norm_num

/-- C2, evaluation of the code at the failing input: with the degenerate
all-zero weight vector and the offset 0 that the degenerate uniform
distribution produces, the unguarded resampling arithmetic is reached
and deterministically copies particle 0 into every slot; the old
population is not kept and the selection is not uniform. -/
theorem resampling_zero_total_weight_eval :
    resampleIndices [0, 0, 0, 0] 0 = some [0, 0, 0, 0] ∧
    some [0, 0, 0, 0] ≠ some [0, 1, 2, 3] := by
  constructor
  · norm_num [resampleIndices, sysLoop, advance]
  · simp

/-- Counterexample to C4 as stated: the offset r = 0 lies in the claimed
interval from 0 inclusive to 1 exclusive, yet with weights 1,1,1,1 the
selected index sequence is 0,0,1,2, not 0,1,2,3: particle 0 is selected
twice and particle 3 never. -/
theorem uniform_weights_any_r_counterexample :
    ((0 : ℚ) ≤ 0 ∧ (0 : ℚ) < 1) ∧
    resampleIndices [1, 1, 1, 1] 0 = some [0, 0, 1, 2] ∧
    resampleIndices [1, 1, 1, 1] 0 ≠ some [0, 1, 2, 3] := by
  refine ⟨⟨le_refl 0, by norm_num⟩, ?_, ?_⟩
  · norm_num [resampleIndices, sysLoop, advance]
  · norm_num [resampleIndices, sysLoop, advance]

lemma specIndices_uniform_four (r : ℚ) (h0 : 0 < r) (h1 : r < 1) :
    specIndices [1, 1, 1, 1] r = [0, 1, 2, 3] := by
  simp only [specIndices]
  norm_num [List.range_succ, cums, leastIdxGe]
  split_ifs <;>
    first
      | (exfalso; linarith)
      | exact ⟨by linarith, by norm_num, by norm_num, by norm_num⟩

/-- C4 amended: with four particles of weight 1 (total weight 4, step
size 1), systematic resampling with any offset r strictly between 0 and
1 selects each of the four indices exactly once, in order 0,1,2,3; at
the boundary offset r = 0, which the interval of the claim includes, the
strict cumulative comparison instead yields 0,0,1,2. -/
theorem uniform_weights_identity_selection (r : ℚ) (h0 : 0 < r) (h1 : r < 1) :
    resampleIndices [1, 1, 1, 1] r = some [0, 1, 2, 3] := by
  have h := (resampleIndices_eq_spec [1, 1, 1, 1] r
    (by intro w hw; simp at hw; rw [hw]; norm_num)
    (by norm_num) (le_of_lt h0) (by norm_num; linarith)).1
  rw [h, specIndices_uniform_four r h0 h1]

/-- Witness for the amended C4 at offset one third. -/
theorem uniform_weights_identity_selection_witness :
    resampleIndices [1, 1, 1, 1] (1 / 3) = some [0, 1, 2, 3] :=
  uniform_weights_identity_selection (1 / 3) (by norm_num) (by norm_num)

/-- C10: for every population of at least one particle with non-negative
weights and exact arithmetic, the resampling loop succeeds with no
out-of-bounds particle access: it fills exactly N slots, every selected
source index stays below N, and in the zero-total-weight case (offset
forced to 0) it selects index 0 for every slot without advancing. -/
theorem resampling_loop_in_bounds (ws : List ℚ) (r : ℚ)
    (hws : ∀ w, w ∈ ws → 0 ≤ w) (hlen : 0 < ws.length)
    (hr0 : 0 ≤ r) (hrN : r * (ws.length : ℚ) ≤ ws.sum) :
    ∃ l, resampleIndices ws r = some l ∧ l.length = ws.length ∧
      (∀ x, x ∈ l → x < ws.length) ∧
      (ws.sum = 0 → l = List.replicate ws.length 0) := by
  have hlenq : (0 : ℚ) < (ws.length : ℚ) := by exact_mod_cast hlen
  have hr1 : r ≤ ws.sum / (ws.length : ℚ) := (le_div_iff₀ hlenq).mpr hrN
  obtain ⟨heq, hbound⟩ := resampleIndices_eq_spec ws r hws hlen hr0 hr1
  refine ⟨specIndices ws r, heq, by simp [specIndices], hbound, ?_⟩
  intro hsum
  have hrz : r = 0 := by
    rw [hsum] at hrN
    nlinarith
  have hall := sum_zero_all_zero ws hws hsum
  obtain ⟨w, rest, rfl⟩ : ∃ w rest, ws = w :: rest := by
    cases ws with
    | nil => simp at hlen
    | cons w rest => exact ⟨w, rest, rfl⟩
  have hw0 : w = 0 := hall w (by simp)
  have hlenspec : (specIndices (w :: rest) r).length = (w :: rest).length := by
    simp [specIndices]
  rw [← hlenspec]
  apply List.eq_replicate_of_mem
  intro b hb
  simp only [specIndices, List.mem_map] at hb
  obtain ⟨m, _, hm⟩ := hb
  rw [← hm, hrz, hsum, hw0]
  simp [cums, leastIdxGe]

/-- Witness for C10 at the zero-total-weight population of two particles. -/
theorem resampling_loop_in_bounds_witness :
    ∃ l, resampleIndices [0, 0] 0 = some l ∧
      l.length = ([0, 0] : List ℚ).length ∧
      (∀ x, x ∈ l → x < ([0, 0] : List ℚ).length) ∧
      (([0, 0] : List ℚ).sum = 0 → l = List.replicate ([0, 0] : List ℚ).length 0) :=
  resampling_loop_in_bounds [0, 0] 0
    (by intro w hw; simp at hw; rw [hw])
    (by norm_num) (le_refl 0) (by norm_num)

lemma add_true_append (up : Pose → SSensorData → Pose) (sl : SScanLine)
    (data : SSensorData) (h : (SScanLine.add up sl data).1 = true) :
    ∃ it, (SScanLine.add up sl data).2.m_vecscan = sl.m_vecscan ++ [it] := by
  by_cases h1 : sl.m_vecscan = []
  · refine ⟨⟨up Pose.zero data, data.m_nAngle, data.m_nDistance⟩, ?_⟩
    simp only [SScanLine.add, if_pos h1]
    rw [h1]
    rfl
  · by_cases h2 : CompareAngle (sl.m_vecscan.headD dummyScanItem).m_nAngle
        (sl.m_vecscan.getLastD dummyScanItem).m_nAngle = 0 ∨
      CompareAngle (sl.m_vecscan.getLastD dummyScanItem).m_nAngle data.m_nAngle = 0 ∨
      CompareAngle (sl.m_vecscan.headD dummyScanItem).m_nAngle
        (sl.m_vecscan.getLastD dummyScanItem).m_nAngle =
      CompareAngle (sl.m_vecscan.getLastD dummyScanItem).m_nAngle data.m_nAngle
    · refine ⟨⟨up (sl.m_vecscan.getLastD dummyScanItem).m_pose data,
        data.m_nAngle, data.m_nDistance⟩, ?_⟩
      simp only [SScanLine.add, if_neg h1, if_pos h2]
    · exfalso
      simp only [SScanLine.add, if_neg h1, if_neg h2] at h
      exact absurd h (by simp)

lemma add_false_frame (up : Pose → SSensorData → Pose) (sl : SScanLine)
    (data : SSensorData) (h : (SScanLine.add up sl data).1 = false) :
    (SScanLine.add up sl data).2 = sl := by
  by_cases h1 : sl.m_vecscan = []
  · simp only [SScanLine.add, if_pos h1] at h
    exact absurd h (by simp)
  · by_cases h2 : CompareAngle (sl.m_vecscan.headD dummyScanItem).m_nAngle
        (sl.m_vecscan.getLastD dummyScanItem).m_nAngle = 0 ∨
      CompareAngle (sl.m_vecscan.getLastD dummyScanItem).m_nAngle data.m_nAngle = 0 ∨
      CompareAngle (sl.m_vecscan.headD dummyScanItem).m_nAngle
        (sl.m_vecscan.getLastD dummyScanItem).m_nAngle =
      CompareAngle (sl.m_vecscan.getLastD dummyScanItem).m_nAngle data.m_nAngle
    · simp only [SScanLine.add, if_neg h1, if_pos h2] at h
      exact absurd h (by simp)
    · simp only [SScanLine.add, if_neg h1, if_neg h2]

lemma add_false_iff (up : Pose → SSensorData → Pose) (sl : SScanLine)
    (data : SSensorData) :
    (SScanLine.add up sl data).1 = false ↔
      (sl.m_vecscan ≠ [] ∧
       CompareAngle (sl.m_vecscan.headD dummyScanItem).m_nAngle
         (sl.m_vecscan.getLastD dummyScanItem).m_nAngle ≠ 0 ∧
       CompareAngle (sl.m_vecscan.getLastD dummyScanItem).m_nAngle data.m_nAngle ≠ 0 ∧
       CompareAngle (sl.m_vecscan.headD dummyScanItem).m_nAngle
         (sl.m_vecscan.getLastD dummyScanItem).m_nAngle ≠
       CompareAngle (sl.m_vecscan.getLastD dummyScanItem).m_nAngle data.m_nAngle) := by
  by_cases h1 : sl.m_vecscan = []
  · simp only [SScanLine.add, if_pos h1]
    constructor
    · intro hf; exact absurd hf (by simp)
    · intro hr; exact absurd h1 hr.1
  · by_cases h2 : CompareAngle (sl.m_vecscan.headD dummyScanItem).m_nAngle
        (sl.m_vecscan.getLastD dummyScanItem).m_nAngle = 0 ∨
      CompareAngle (sl.m_vecscan.getLastD dummyScanItem).m_nAngle data.m_nAngle = 0 ∨
      CompareAngle (sl.m_vecscan.headD dummyScanItem).m_nAngle
        (sl.m_vecscan.getLastD dummyScanItem).m_nAngle =
      CompareAngle (sl.m_vecscan.getLastD dummyScanItem).m_nAngle data.m_nAngle
    · simp only [SScanLine.add, if_neg h1, if_pos h2]
      constructor
      · intro hf; exact absurd hf (by simp)
      · intro hr
        rcases h2 with h | h | h
        · exact absurd h hr.2.1
        · exact absurd h hr.2.2.1
        · exact absurd h hr.2.2.2
    · have h3 := h2
      push_neg at h3
      simp only [SScanLine.add, if_neg h1, if_neg h2]
      constructor
      · intro _; exact ⟨h1, h3.1, h3.2.1, h3.2.2⟩
      · intro _; trivial

/-- C3: SScanLine::add appends the sample and returns true when the
buffer is empty, or when the three-way comparison of the first buffered
bearing against the last agrees in sign with the comparison of the last
buffered bearing against the new one or either sign is zero; it returns
false, leaving the buffer unchanged, exactly when both signs are nonzero
and disagree (a sweep reversal). -/
theorem scanline_add_reversal_rule (up : Pose → SSensorData → Pose)
    (sl : SScanLine) (data : SSensorData) :
    ((SScanLine.add up sl data).1 = false ↔
      (sl.m_vecscan ≠ [] ∧
       CompareAngle (sl.m_vecscan.headD dummyScanItem).m_nAngle
         (sl.m_vecscan.getLastD dummyScanItem).m_nAngle ≠ 0 ∧
       CompareAngle (sl.m_vecscan.getLastD dummyScanItem).m_nAngle data.m_nAngle ≠ 0 ∧
       CompareAngle (sl.m_vecscan.headD dummyScanItem).m_nAngle
         (sl.m_vecscan.getLastD dummyScanItem).m_nAngle ≠
       CompareAngle (sl.m_vecscan.getLastD dummyScanItem).m_nAngle data.m_nAngle)) ∧
    ((SScanLine.add up sl data).1 = false → (SScanLine.add up sl data).2 = sl) ∧
    ((SScanLine.add up sl data).1 = true →
      ∃ it, (SScanLine.add up sl data).2.m_vecscan = sl.m_vecscan ++ [it]) :=
  ⟨add_false_iff up sl data, add_false_frame up sl data, add_true_append up sl data⟩

/-- C9: whenever the scan-line accumulator accepts a sample (no sweep
reversal), receivedSensorData returns false and performs no estimator
step: particles, trajectory and best-particle reference are exactly
those of the state before the call, and only the scan-line buffer grows,
by that one sample. -/
theorem accepted_sample_no_estimator_step {Grid LikMap Image : Type}
    (M : Model Grid LikMap Image) (st : CParticleSLAM Grid LikMap)
    (data : SSensorData) (r : ℚ)
    (hacc : (SScanLine.add M.UpdatePose st.m_scanline data).1 = true) :
    receivedSensorDataO M st data r =
      some (false,
        ⟨st.m_vecparticle, st.m_itparticle,
         (SScanLine.add M.UpdatePose st.m_scanline data).2, st.m_vecpose⟩) ∧
    ∃ it, (SScanLine.add M.UpdatePose st.m_scanline data).2.m_vecscan =
      st.m_scanline.m_vecscan ++ [it] := by
  constructor
  · simp only [receivedSensorDataO, if_pos hacc]
  · exact add_true_append M.UpdatePose st.m_scanline data hacc

lemma sysLoop_length (step r : ℚ) :
    ∀ (cnt m i : Nat) (c : ℚ) (rest : List ℚ) (l : List Nat),
      sysLoop step r cnt m i c rest = some l → l.length = cnt := by
  intro cnt
  induction cnt with
  | zero =>
    intro m i c rest l h
    simp only [sysLoop, Option.some.injEq] at h
    rw [← h]
    rfl
  | succ cnt ih =>
    intro m i c rest l h
    rw [sysLoop] at h
    cases hadv : advance (r + (m : ℚ) * step) rest i c with
    | none => simp [hadv] at h
    | some t =>
      obtain ⟨i2, c2, rest2⟩ := t
      simp only [hadv] at h
      cases hloop : sysLoop step r cnt (m + 1) i2 c2 rest2 with
      | none => simp [hloop] at h
      | some l2 =>
        simp only [hloop, Option.some.injEq] at h
        rw [← h, List.length_cons, ih (m + 1) i2 c2 rest2 l2 hloop]

lemma resampleIndices_length (ws : List ℚ) (r : ℚ) (l : List Nat)
    (h : resampleIndices ws r = some l) : l.length = ws.length := by
  cases ws with
  | nil => simp [resampleIndices] at h
  | cons w rest =>
    rw [resampleIndices] at h
    exact sysLoop_length _ _ _ _ _ _ _ _ h

/-- C5: the particle population size is invariant: a filter constructed
with N particles has exactly N particles, and every defined call to
receivedSensorData leaves the population size unchanged, whether it
returns true (the resampled replacement population has the same size) or
false. -/
theorem particle_population_size_invariant {Grid LikMap Image : Type}
    (M : Model Grid LikMap Image) (n : Nat) :
    (CParticleSLAM.construct M n).m_vecparticle.length = n ∧
    (∀ (st : CParticleSLAM Grid LikMap) (data : SSensorData) (r : ℚ)
        (b : Bool) (st2 : CParticleSLAM Grid LikMap),
      receivedSensorDataO M st data r = some (b, st2) →
      st2.m_vecparticle.length = st.m_vecparticle.length) := by
  constructor
  · simp [CParticleSLAM.construct]
  · intro st data r b st2 h
    simp only [receivedSensorDataO] at h
    by_cases hacc : (SScanLine.add M.UpdatePose st.m_scanline data).1 = true
    · rw [if_pos hacc] at h
      simp only [Option.some.injEq, Prod.mk.injEq] at h
      rw [← h.2]
    · rw [if_neg hacc] at h
      cases hres : resampleIndices ((st.m_vecparticle.map
          (fun p => SParticle.update M p st.m_scanline)).map (fun p => p.m_fWeight)) r with
      | none => rw [hres] at h; exact absurd h (by simp)
      | some idxs =>
        rw [hres] at h
        simp only [Option.some.injEq, Prod.mk.injEq] at h
        rw [← h.2]
        simp only [List.length_map]
        rw [resampleIndices_length _ r idxs hres]
        simp

lemma maxElemIdxAux_spec (F : List ℚ) :
    ∀ (l : List ℚ) (k best : Nat) (bw : ℚ),
      l = F.drop k → best < F.length → F.getD best 0 = bw →
      (maxElemIdxAux l k best bw < F.length ∧
       bw ≤ F.getD (maxElemIdxAux l k best bw) 0 ∧
       ∀ x, x ∈ l → x ≤ F.getD (maxElemIdxAux l k best bw) 0) := by
  intro l
  induction l with
  | nil =>
    intro k best bw _ hbest hbw
    exact ⟨hbest, le_of_eq hbw.symm, by simp⟩
  | cons w l2 ih =>
    intro k best bw hl hbest hbw
    have hk : k < F.length := by
      by_contra hcon
      push_neg at hcon
      rw [List.drop_eq_nil_of_le hcon] at hl
      exact List.cons_ne_nil w l2 hl
    have hdecomp : F.drop k = F[k] :: F.drop (k + 1) := List.drop_eq_getElem_cons hk
    rw [hdecomp] at hl
    injection hl with hw hl2
    have hFk : F.getD k 0 = w := by
      rw [List.getD_eq_getElem F 0 hk, hw]
    by_cases hlt : bw < w
    · simp only [maxElemIdxAux, if_pos hlt]
      obtain ⟨r1, r2, r3⟩ := ih (k + 1) k w hl2 hk hFk
      refine ⟨r1, le_trans (le_of_lt hlt) r2, ?_⟩
      intro x hx
      rcases List.mem_cons.mp hx with hh | hh
      · rw [hh]
        exact r2
      · exact r3 x hh
    · simp only [maxElemIdxAux, if_neg hlt]
      obtain ⟨r1, r2, r3⟩ := ih (k + 1) best bw hl2 hbest hbw
      refine ⟨r1, r2, ?_⟩
      intro x hx
      rcases List.mem_cons.mp hx with hh | hh
      · rw [hh]
        exact le_trans (not_lt.mp hlt) r2
      · exact r3 x hh

lemma maxElemIdx_spec (l : List ℚ) (hne : l ≠ []) :
    maxElemIdx l < l.length ∧ ∀ x, x ∈ l → x ≤ l.getD (maxElemIdx l) 0 := by
  cases l with
  | nil => exact absurd rfl hne
  | cons w l2 =>
    have h := maxElemIdxAux_spec (w :: l2) l2 1 0 w (by simp) (by simp) (by simp)
    simp only [maxElemIdx]
    refine ⟨h.1, ?_⟩
    intro x hx
    rcases List.mem_cons.mp hx with hh | hh
    · rw [hh]; exact h.2.1
    · exact h.2.2 x hh

lemma getD_map_weight {Grid LikMap : Type} (ps : List (SParticle Grid LikMap))
    (i : Nat) (d : SParticle Grid LikMap) (hi : i < ps.length) :
    (ps.map (fun p => p.m_fWeight)).getD i 0 = (ps.getD i d).m_fWeight := by
  rw [List.getD_eq_getElem _ _ (by simpa using hi), List.getD_eq_getElem _ _ hi]
  simp

/-- C6: whenever receivedSensorData returns true, exactly one pose is
appended to the trajectory, namely the pose of the particle at the index
of the first maximum-weight particle of the population after the swap
(that index also becomes the best-particle reference, and its weight
dominates every weight of the new population), and afterwards the
scan-line buffer contains exactly the one sample that triggered the line
completion, seeding the next line. -/
theorem resample_appends_best_pose_and_reseeds {Grid LikMap Image : Type}
    (M : Model Grid LikMap Image) (st st2 : CParticleSLAM Grid LikMap)
    (data : SSensorData) (r : ℚ)
    (h : receivedSensorDataO M st data r = some (true, st2)) :
    st2.m_vecpose = st.m_vecpose ++
      [(st2.m_vecparticle.getD
          (maxElemIdx (st2.m_vecparticle.map (fun p => p.m_fWeight)))
          (initParticle M)).m_pose] ∧
    st2.m_itparticle =
      some (maxElemIdx (st2.m_vecparticle.map (fun p => p.m_fWeight))) ∧
    (∀ q, q ∈ st2.m_vecparticle → q.m_fWeight ≤
      (st2.m_vecparticle.getD
        (maxElemIdx (st2.m_vecparticle.map (fun p => p.m_fWeight)))
        (initParticle M)).m_fWeight) ∧
    st2.m_scanline.m_vecscan =
      [⟨M.UpdatePose Pose.zero data, data.m_nAngle, data.m_nDistance⟩] := by
  simp only [receivedSensorDataO] at h
  by_cases hacc : (SScanLine.add M.UpdatePose st.m_scanline data).1 = true
  · rw [if_pos hacc] at h
    simp at h
  · rw [if_neg hacc] at h
    cases hres : resampleIndices ((st.m_vecparticle.map
        (fun p => SParticle.update M p st.m_scanline)).map (fun p => p.m_fWeight)) r with
    | none =>
      rw [hres] at h
      exact absurd h (by simp)
    | some idxs =>
      rw [hres] at h
      simp only [Option.some.injEq, Prod.mk.injEq, true_and] at h
      have hlen0 : 0 < st.m_vecparticle.length := by
        by_contra hcon
        push_neg at hcon
        have : st.m_vecparticle = [] := List.length_eq_zero.mp (Nat.le_zero.mp hcon)
        rw [this] at hres
        simp [resampleIndices] at hres
      have hidxlen : idxs.length = st.m_vecparticle.length := by
        have := resampleIndices_length _ r idxs hres
        simpa using this
      have hne : st2.m_vecparticle ≠ [] := by
        rw [← h]
        simp only [ne_eq, List.map_eq_nil_iff]
        intro hcon
        rw [hcon] at hidxlen
        simp at hidxlen
        omega
      have hwne : st2.m_vecparticle.map (fun p => p.m_fWeight) ≠ [] := by
        simpa using hne
      obtain ⟨hmlt, hmax⟩ := maxElemIdx_spec (st2.m_vecparticle.map (fun p => p.m_fWeight)) hwne
      have hmlt2 : maxElemIdx (st2.m_vecparticle.map (fun p => p.m_fWeight)) <
          st2.m_vecparticle.length := by simpa using hmlt
      refine ⟨?_, ?_, ?_, ?_⟩
      · rw [← h]
      · rw [← h]
      · intro q hq
        have hmem : q.m_fWeight ∈ st2.m_vecparticle.map (fun p => p.m_fWeight) :=
          List.mem_map_of_mem _ hq
        have := hmax q.m_fWeight hmem
        rw [getD_map_weight st2.m_vecparticle _ (initParticle M) hmlt2] at this
        exact this
      · rw [← h]
        simp [SScanLine.add]

/-- C7: getMap is a pure read: whenever it is defined (the assertion on
the best-particle reference passes), the estimator state after the call
is identical to the state before it, component by component: the
particle population with every pose, weight, grid and likelihood field,
the best-particle reference, the scan-line buffer and the trajectory;
the trajectory overlay is drawn on the derived image only. -/
theorem getMap_pure_read {Grid LikMap Image : Type}
    (M : Model Grid LikMap Image) (st st2 : CParticleSLAM Grid LikMap)
    (img : Image) (h : CParticleSLAM.getMap M st = some (img, st2)) :
    st2.m_vecparticle = st.m_vecparticle ∧
    st2.m_itparticle = st.m_itparticle ∧
    st2.m_scanline = st.m_scanline ∧
    st2.m_vecpose = st.m_vecpose ∧
    st2.m_vecparticle.map (fun p => p.m_pose) =
      st.m_vecparticle.map (fun p => p.m_pose) ∧
    st2.m_vecparticle.map (fun p => p.m_fWeight) =
      st.m_vecparticle.map (fun p => p.m_fWeight) ∧
    st2.m_vecparticle.map (fun p => p.m_occgrid) =
      st.m_vecparticle.map (fun p => p.m_occgrid) ∧
    st2.m_vecparticle.map (fun p => p.m_matLikelihood) =
      st.m_vecparticle.map (fun p => p.m_matLikelihood) := by
  rw [CParticleSLAM.getMap] at h
  cases hit : st.m_itparticle with
  | none => rw [hit] at h; simp at h
  | some idx =>
    simp only [hit, Option.some.injEq, Prod.mk.injEq] at h
    rw [← h.2]
    exact ⟨rfl, hit, rfl, rfl, rfl, rfl, rfl, rfl⟩

lemma recv_false_keeps_itparticle {Grid LikMap Image : Type}
    (M : Model Grid LikMap Image) (st st2 : CParticleSLAM Grid LikMap)
    (data : SSensorData) (r : ℚ)
    (h : receivedSensorDataO M st data r = some (false, st2)) :
    st2.m_itparticle = st.m_itparticle := by
  simp only [receivedSensorDataO] at h
  by_cases hacc : (SScanLine.add M.UpdatePose st.m_scanline data).1 = true
  · rw [if_pos hacc] at h
    simp only [Option.some.injEq, Prod.mk.injEq, true_and] at h
    rw [← h]
  · rw [if_neg hacc] at h
    cases hres : resampleIndices ((st.m_vecparticle.map
        (fun p => SParticle.update M p st.m_scanline)).map (fun p => p.m_fWeight)) r with
    | none =>
      rw [hres] at h
      exact absurd h (by simp)
    | some idxs =>
      rw [hres] at h
      exact absurd h (by simp)

lemma runAll_all_false_keeps_itparticle {Grid LikMap Image : Type}
    (M : Model Grid LikMap Image) :
    ∀ (inputs : List (SSensorData × ℚ)) (st : CParticleSLAM Grid LikMap)
      (bs : List Bool) (st2 : CParticleSLAM Grid LikMap),
      runAll M st inputs = some (bs, st2) → (∀ b, b ∈ bs → b = false) →
      st2.m_itparticle = st.m_itparticle := by
  intro inputs
  induction inputs with
  | nil =>
    intro st bs st2 h _
    simp only [runAll, Option.some.injEq, Prod.mk.injEq] at h
    rw [← h.2]
  | cons p rest ih =>
    obtain ⟨data, r⟩ := p
    intro st bs st2 h hall
    rw [runAll] at h
    cases h1 : receivedSensorDataO M st data r with
    | none => simp [h1] at h
    | some br =>
      obtain ⟨b, stm⟩ := br
      simp only [h1] at h
      cases h2 : runAll M stm rest with
      | none => simp [h2] at h
      | some pr =>
        obtain ⟨bs2, stf⟩ := pr
        simp only [h2, Option.some.injEq, Prod.mk.injEq] at h
        obtain ⟨hbs, hst⟩ := h
        have hb : b = false := by
          apply hall
          rw [← hbs]
          simp
        have hrest : ∀ x, x ∈ bs2 → x = false := by
          intro x hx
          apply hall
          rw [← hbs]
          simp [hx]
        rw [hb] at h1
        rw [← hst] at *
        rw [ih stm bs2 stf h2 hrest,
          recv_false_keeps_itparticle M st stm data r h1]

/-- C8: calling getMap before any true-returning receivedSensorData
call, that is after a run from construction in which every call
returned false, hits the assertion on the unset best-particle reference
and yields no map at all rather than silently returning a blank one. -/
theorem getMap_before_first_resample_asserts {Grid LikMap Image : Type}
    (M : Model Grid LikMap Image) (n : Nat) (inputs : List (SSensorData × ℚ))
    (bs : List Bool) (st : CParticleSLAM Grid LikMap)
    (h : runAll M (CParticleSLAM.construct M n) inputs = some (bs, st))
    (hall : ∀ b, b ∈ bs → b = false) :
    CParticleSLAM.getMap M st = none := by
  have hit : st.m_itparticle = none := by
    rw [runAll_all_false_keeps_itparticle M inputs _ bs st h hall]
    rfl
  rw [CParticleSLAM.getMap, hit]

/-- Witness for C3: on the concrete two-sample increasing line, the
reversing bearing 5 is rejected and the buffer is unchanged. -/
theorem scanline_add_reversal_rule_witness :
    (SScanLine.add demoModel.UpdatePose demoScan2 demoDataRev).1 = false ∧
    (SScanLine.add demoModel.UpdatePose demoScan2 demoDataRev).2 = demoScan2 := by
  have t := scanline_add_reversal_rule demoModel.UpdatePose demoScan2 demoDataRev
  have hf : (SScanLine.add demoModel.UpdatePose demoScan2 demoDataRev).1 = false := by
    apply t.1.mpr
    refine ⟨by simp [demoScan2], ?_, ?_, ?_⟩ <;> decide
  exact ⟨hf, t.2.1 hf⟩

/-- Witness for C9: the very first sample fed to a freshly constructed
filter is accepted and no estimator step happens. -/
theorem accepted_sample_no_estimator_step_witness :
    receivedSensorDataO demoModel (CParticleSLAM.construct demoModel 2) demoData0 0 =
      some (false,
        ⟨(CParticleSLAM.construct demoModel 2).m_vecparticle,
         (CParticleSLAM.construct demoModel 2).m_itparticle,
         (SScanLine.add demoModel.UpdatePose
           (CParticleSLAM.construct demoModel 2).m_scanline demoData0).2,
         (CParticleSLAM.construct demoModel 2).m_vecpose⟩) ∧
    ∃ it, (SScanLine.add demoModel.UpdatePose
        (CParticleSLAM.construct demoModel 2).m_scanline demoData0).2.m_vecscan =
      (CParticleSLAM.construct demoModel 2).m_scanline.m_vecscan ++ [it] :=
  accepted_sample_no_estimator_step demoModel (CParticleSLAM.construct demoModel 2)
    demoData0 0 (by rfl)

/-- Witness for C5: a concrete accepted call keeps the population size. -/
theorem particle_population_size_invariant_witness :
    (⟨(CParticleSLAM.construct demoModel 2).m_vecparticle,
      (CParticleSLAM.construct demoModel 2).m_itparticle,
      (SScanLine.add demoModel.UpdatePose
        (CParticleSLAM.construct demoModel 2).m_scanline demoData0).2,
      (CParticleSLAM.construct demoModel 2).m_vecpose⟩ : CParticleSLAM Unit Unit
      ).m_vecparticle.length =
    (CParticleSLAM.construct demoModel 2).m_vecparticle.length :=
  (particle_population_size_invariant demoModel 2).2
    (CParticleSLAM.construct demoModel 2) demoData0 0 false
    (⟨(CParticleSLAM.construct demoModel 2).m_vecparticle,
      (CParticleSLAM.construct demoModel 2).m_itparticle,
      (SScanLine.add demoModel.UpdatePose
        (CParticleSLAM.construct demoModel 2).m_scanline demoData0).2,
      (CParticleSLAM.construct demoModel 2).m_vecpose⟩)
    (by rfl)

lemma demo_resample_call :
    receivedSensorDataO demoModel demoStateFull demoDataRev 0 =
      some (true, demoStateAfter) := by
  norm_num [receivedSensorDataO, demoStateFull, demoStateAfter, demoScan2, demoDataRev,
    SScanLine.add, CompareAngle, SParticle.update, SScanLine.translation,
    SScanLine.rotation, resampleIndices, sysLoop, advance, maxElemIdx, maxElemIdxAux,
    initParticle, demoModel, Pose.zero, dummyScanItem]
  rw [if_neg (by simp)]

/-- Witness for C6: the concrete resampling call appends exactly the
best-particle pose and reseeds the scan line with the reversing sample. -/
theorem resample_appends_best_pose_and_reseeds_witness :
    demoStateAfter.m_vecpose = demoStateFull.m_vecpose ++
      [(demoStateAfter.m_vecparticle.getD
          (maxElemIdx (demoStateAfter.m_vecparticle.map (fun p => p.m_fWeight)))
          (initParticle demoModel)).m_pose] ∧
    demoStateAfter.m_itparticle =
      some (maxElemIdx (demoStateAfter.m_vecparticle.map (fun p => p.m_fWeight))) ∧
    (∀ q, q ∈ demoStateAfter.m_vecparticle → q.m_fWeight ≤
      (demoStateAfter.m_vecparticle.getD
        (maxElemIdx (demoStateAfter.m_vecparticle.map (fun p => p.m_fWeight)))
        (initParticle demoModel)).m_fWeight) ∧
    demoStateAfter.m_scanline.m_vecscan =
      [⟨demoModel.UpdatePose Pose.zero demoDataRev,
        demoDataRev.m_nAngle, demoDataRev.m_nDistance⟩] :=
  resample_appends_best_pose_and_reseeds demoModel demoStateFull demoStateAfter
    demoDataRev 0 demo_resample_call

/-- Witness for C7: reading the map of a concrete state leaves every
component unchanged. -/
theorem getMap_pure_read_witness :
    demoStateBest.m_vecparticle = demoStateBest.m_vecparticle ∧
    demoStateBest.m_itparticle = demoStateBest.m_itparticle ∧
    demoStateBest.m_scanline = demoStateBest.m_scanline ∧
    demoStateBest.m_vecpose = demoStateBest.m_vecpose ∧
    demoStateBest.m_vecparticle.map (fun p => p.m_pose) =
      demoStateBest.m_vecparticle.map (fun p => p.m_pose) ∧
    demoStateBest.m_vecparticle.map (fun p => p.m_fWeight) =
      demoStateBest.m_vecparticle.map (fun p => p.m_fWeight) ∧
    demoStateBest.m_vecparticle.map (fun p => p.m_occgrid) =
      demoStateBest.m_vecparticle.map (fun p => p.m_occgrid) ∧
    demoStateBest.m_vecparticle.map (fun p => p.m_matLikelihood) =
      demoStateBest.m_vecparticle.map (fun p => p.m_matLikelihood) :=
  getMap_pure_read demoModel demoStateBest demoStateBest () (by rfl)

/-- Witness for C8: on the freshly constructed filter, before any call,
getMap yields no map. -/
theorem getMap_before_first_resample_asserts_witness :
    CParticleSLAM.getMap demoModel (CParticleSLAM.construct demoModel 1) = none :=
  getMap_before_first_resample_asserts demoModel 1 [] []
    (CParticleSLAM.construct demoModel 1) (by rfl) (by simp)

end MappingRover
